import Mathlib

/-!
Verification of the concurrent-update queue protocol, lane propagation,
event batching and host-context stack of the examined React excerpt.

The JavaScript sources are shallowly embedded:

* `ReactFiberConcurrentUpdates.old.js` — update records live in a heap of
  `next` pointers (`Nat → Nat`); each queue has `pending`/`interleaved`
  tail pointers (`Option Nat`); the module-level `concurrentQueues`
  registry is an `Option (List Nat)` of queue ids; fibers live in a heap
  `Nat → FiberNode` addressed by fiber id.  The `__DEV__`-only diagnostic
  warnings are elided (they perform no state change and return nothing).
* `ReactDOMUpdateBatching.js` — `batchedUpdates` with the default
  `batchedUpdatesImpl` (direct invocation).  The collaborators
  `needsStateRestore` / `restoreStateIfNeeded` / `flushSyncImpl` are not
  part of the excerpt and are modelled from the spec.
* the host-context module (`requiredContext`, `getRootHostContainer`,
  `pushHostContainer`, `getHostContext`, `pushHostContext`,
  `popHostContext`) — cursors hold `Option Nat` values with `none`
  playing the role of the `NO_CONTEXT` sentinel; the generic stack
  (`createCursor`/`push`/`pop`) is not part of the excerpt and is
  modelled from the spec as a saved-value stack per cursor.

Loops that chase `return` / `next` pointers are given explicit fuel; the
theorems take the existence of a finite ancestor chain (`chainToRoot`) as
a hypothesis, which is exactly termination of the JavaScript loop.
-/

/-! ## Pointer-heap helpers -/

/-- Point update of a `next`-pointer heap. -/
def upd (f : Nat → Nat) (i v : Nat) : Nat → Nat :=
  fun j => if j = i then v else f j

/-- Point update of an optional-valued field indexed by queue id. -/
def updO {α : Type} (f : Nat → Option α) (i : Nat) (v : Option α) :
    Nat → Option α :=
  fun j => if j = i then v else f j

/-! ## Lanes (`ReactFiberLane.old.js` excerpt used by this module) -/

/-- `mergeLanes(a, b) = a | b`. -/
def mergeLanes (a b : Nat) : Nat := a ||| b

/-- `l` is a subset of the lane bitset `m`. -/
def subLane (l m : Nat) : Prop := l ||| m = m

instance (l m : Nat) : Decidable (subLane l m) := by
  unfold subLane; infer_instance

/-! ## Fibers and lane propagation (`markUpdateLaneFromFiberToRoot`) -/

/-- `HostRoot` work tag (`ReactWorkTags.js`). -/
def HostRoot : Nat := 3

/-- One work unit of the fiber tree; `ret` is the `return` back-pointer,
`alternate` the mirror node, `stateNode` the root container id (only
meaningful on a `HostRoot`-tagged node). -/
structure FiberNode where
  tag : Nat
  lanes : Nat
  childLanes : Nat
  flags : Nat
  ret : Option Nat
  alternate : Option Nat
  stateNode : Nat
deriving DecidableEq

/-- Heap of fiber nodes addressed by fiber id. -/
def Heap : Type := Nat → FiberNode

/-- Point update of the fiber heap. -/
def updF (f : Heap) (i : Nat) (n : FiberNode) : Heap :=
  fun j => if j = i then n else f j

/-- `fiber.lanes = mergeLanes(fiber.lanes, lane)`. -/
def addLanes (f : Heap) (i lane : Nat) : Heap :=
  updF f i { f i with lanes := mergeLanes (f i).lanes lane }

/-- `fiber.childLanes = mergeLanes(fiber.childLanes, lane)`. -/
def addChildLanes (f : Heap) (i lane : Nat) : Heap :=
  updF f i { f i with childLanes := mergeLanes (f i).childLanes lane }

/-- The `while (parent !== null)` walk of `markUpdateLaneFromFiberToRoot`:
at each parent, merge `lane` into `childLanes` (and into the alternate's
`childLanes` when an alternate exists); when `return` is absent, return
the root container if the last node is a `HostRoot`, else `null`. -/
def markLoop : Nat → Heap → Nat → Nat → Option Nat × Heap
  | 0, f, _, _ => (none, f)
  | fuel + 1, f, node, lane =>
    match (f node).ret with
    | none =>
      (if (f node).tag = HostRoot then some ((f node).stateNode) else none, f)
    | some parent =>
      let f1 := addChildLanes f parent lane
      let f2 :=
        match (f1 parent).alternate with
        | some alt => addChildLanes f1 alt lane
        | none => f1
      markLoop fuel f2 parent lane

/-- `markUpdateLaneFromFiberToRoot(sourceFiber, lane)`: merge `lane` into
the source fiber's `lanes` (and its alternate's), then walk the parent
path updating `childLanes`. -/
def markUpdateLaneFromFiberToRoot (fuel : Nat) (f : Heap)
    (sourceFiber lane : Nat) : Option Nat × Heap :=
  let f1 := addLanes f sourceFiber lane
  let f2 :=
    match (f1 sourceFiber).alternate with
    | some alt => addLanes f1 alt lane
    | none => f1
  markLoop fuel f2 sourceFiber lane

/-- The chain of nodes visited by following `return` pointers from `i`
(inclusive), `some` exactly when the walk reaches a node with no parent
within `fuel` steps — i.e. when the JavaScript loop terminates. -/
def chainToRoot (f : Heap) : Nat → Nat → Option (List Nat)
  | 0, _ => none
  | fuel + 1, i =>
    match (f i).ret with
    | none => some [i]
    | some p => (chainToRoot f fuel p).map (fun ch => i :: ch)

/-! ## Concurrent update queues (`ReactFiberConcurrentUpdates.old.js`) -/

/-- Whole-module state: the `next`-pointer heap of update records, each
queue's `pending` and `interleaved` tail pointers, the module-level
`concurrentQueues` registry, and the fiber heap. -/
structure ConcState where
  nxt : Nat → Nat
  pending : Nat → Option Nat
  interleaved : Nat → Option Nat
  concurrentQueues : Option (List Nat)
  fibers : Heap

/-- `pushConcurrentUpdateQueue(queue)`. -/
def pushConcurrentUpdateQueue (q : Nat) (s : ConcState) : ConcState :=
  match s.concurrentQueues with
  | none => { s with concurrentQueues := some [q] }
  | some l => { s with concurrentQueues := some (l ++ [q]) }

/-- The queue `q` appears in the module-level registry. -/
def registeredQueue (s : ConcState) (q : Nat) : Prop :=
  match s.concurrentQueues with
  | none => False
  | some l => q ∈ l

/-- Loop body of `finishQueueingConcurrentUpdates` for one queue: if its
side channel is non-empty, detach it and splice it after the pending
list (or install it verbatim when `pending` is absent). -/
def transferQueue (s : ConcState) (q : Nat) : ConcState :=
  match s.interleaved q with
  | none => s
  | some lastInterleaved =>
    let s1 := { s with interleaved := updO s.interleaved q none }
    let firstInterleaved := s1.nxt lastInterleaved
    match s1.pending q with
    | none => { s1 with pending := updO s1.pending q (some lastInterleaved) }
    | some lastPending =>
      let firstPending := s1.nxt lastPending
      let nxt1 := upd s1.nxt lastPending firstInterleaved
      let nxt2 := upd nxt1 lastInterleaved firstPending
      { s1 with
        nxt := nxt2
        pending := updO s1.pending q (some lastInterleaved) }

/-- `finishQueueingConcurrentUpdates()`: drain the registry, transferring
each registered queue's interleaved list onto its pending list, then
reset the registry. -/
def finishQueueingConcurrentUpdates (s : ConcState) : ConcState :=
  match s.concurrentQueues with
  | none => s
  | some qs => { qs.foldl transferQueue s with concurrentQueues := none }

/-- `enqueueConcurrentHookUpdate(fiber, queue, update, lane)`: splice the
update into the queue's interleaved circular list (registering the queue
on the first side-channel append), then propagate the lane and return
the reachable root. -/
def enqueueConcurrentHookUpdate (fuel fiber q u lane : Nat) (s : ConcState) :
    Option Nat × ConcState :=
  let s1 :=
    match s.interleaved q with
    | none => pushConcurrentUpdateQueue q { s with nxt := upd s.nxt u u }
    | some t => { s with nxt := upd (upd s.nxt u (s.nxt t)) t u }
  let s2 := { s1 with interleaved := updO s1.interleaved q (some u) }
  let m := markUpdateLaneFromFiberToRoot fuel s2.fibers fiber lane
  (m.1, { s2 with fibers := m.2 })

/-- `enqueueConcurrentHookUpdateAndEagerlyBailout(fiber, queue, update,
lane)`: identical side-channel mutation, no lane propagation, no return
value. -/
def enqueueConcurrentHookUpdateAndEagerlyBailout (fiber q u lane : Nat)
    (s : ConcState) : ConcState :=
  let s1 :=
    match s.interleaved q with
    | none => pushConcurrentUpdateQueue q { s with nxt := upd s.nxt u u }
    | some t => { s with nxt := upd (upd s.nxt u (s.nxt t)) t u }
  { s1 with interleaved := updO s1.interleaved q (some u) }

/-- `enqueueConcurrentClassUpdate(fiber, queue, update, lane)` — the
class-style entry point; the list mechanics are identical to the
hook-style entry point. -/
def enqueueConcurrentClassUpdate (fuel fiber q u lane : Nat) (s : ConcState) :
    Option Nat × ConcState :=
  let s1 :=
    match s.interleaved q with
    | none => pushConcurrentUpdateQueue q { s with nxt := upd s.nxt u u }
    | some t => { s with nxt := upd (upd s.nxt u (s.nxt t)) t u }
  let s2 := { s1 with interleaved := updO s1.interleaved q (some u) }
  let m := markUpdateLaneFromFiberToRoot fuel s2.fibers fiber lane
  (m.1, { s2 with fibers := m.2 })

/-- `N` hook-style side-channel appends in order. -/
def enqueueN (fuel fiber q lane : Nat) (us : List Nat) (s : ConcState) :
    ConcState :=
  us.foldl (fun t u => (enqueueConcurrentHookUpdate fuel fiber q u lane t).2) s

/-! ## Circular-list abstraction -/

/-- `links nxt l h = true` iff for `l = [a₀, …, aₖ]` the heap links each
`aᵢ` to `aᵢ₊₁` and `aₖ` to `h`. -/
def links (nxt : Nat → Nat) : List Nat → Nat → Bool
  | [], _ => true
  | a :: rest, h => (nxt a == rest.headD h) && links nxt rest h

/-- A tail pointer `tail` represents the circular list whose elements
head-to-tail are `l`: the pointer is the last element, and the links
cycle back to the head. -/
def repCirc (nxt : Nat → Nat) (tail : Option Nat) (l : List Nat) : Prop :=
  tail = l.getLast? ∧ links nxt l (l.headD 0) = true

instance (nxt : Nat → Nat) (tail : Option Nat) (l : List Nat) :
    Decidable (repCirc nxt tail l) := by
  unfold repCirc
  infer_instance

/-- Read `n` records starting at `start` by following `next` pointers. -/
def readFrom (nxt : Nat → Nat) : Nat → Nat → List Nat
  | _, 0 => []
  | start, n + 1 => start :: readFrom nxt (nxt start) n

/-! ## Batching coordinator (`ReactDOMUpdateBatching.js`) -/

/-- State visible to the batching coordinator: the module-level
`isInsideEventHandler` flag plus the controlled-component bookkeeping of
its collaborators. `needsRestore` is the condition reported by
`needsStateRestore()`; `flushes` and `restores` count the synchronous
flushes and state restorations performed. -/
structure BatchState where
  isInsideEventHandler : Bool
  needsRestore : Bool
  flushes : Nat
  restores : Nat
deriving DecidableEq

/-- Modelled from the spec: `needsStateRestore` of
`ReactDOMControlledComponent.js` is absent from the excerpt; it reports
whether externally-tracked controlled-component state still disagrees
with the tree's view. -/
def needsStateRestore (s : BatchState) : Bool := s.needsRestore

/-- Modelled from the spec: `flushSyncImpl` (installed by the renderer)
is absent from the excerpt; it forces a synchronous reconciliation pass,
counted here. -/
def flushSyncImpl (s : BatchState) : BatchState :=
  { s with flushes := s.flushes + 1 }

/-- Modelled from the spec: `restoreStateIfNeeded` of
`ReactDOMControlledComponent.js` is absent from the excerpt; it restores
the out-of-band state, after which nothing disagrees any more. -/
def restoreStateIfNeeded (s : BatchState) : BatchState :=
  { s with needsRestore := false, restores := s.restores + 1 }

/-- `finishEventHandler()`: when controlled components have pending
updates, flush synchronously and restore their state. -/
def finishEventHandler (s : BatchState) : BatchState :=
  if needsStateRestore s then restoreStateIfNeeded (flushSyncImpl s) else s

/-- An operation run under `batchedUpdates`: it may mutate the state and
either return a value or exit abnormally (`Except.error`); state
mutations survive an abnormal exit, as in JavaScript. -/
def BatchOp (α : Type) : Type := BatchState → Except Unit α × BatchState

/-- `batchedUpdates(fn, a, b)` with the default `batchedUpdatesImpl`
(direct invocation): nested calls run `fn` inline; the outermost call
sets `isInsideEventHandler`, runs `fn`, and in a `finally` clause clears
the flag and runs `finishEventHandler()` — also on abnormal exit, which
is re-raised. -/
def batchedUpdates {α : Type} (fn : BatchOp α) (s : BatchState) :
    Except Unit α × BatchState :=
  if s.isInsideEventHandler then fn s
  else
    let s1 := { s with isInsideEventHandler := true }
    let r := fn s1
    let s3 := { r.2 with isInsideEventHandler := false }
    (r.1, finishEventHandler s3)

/-! ## Host context stack (the unnamed context module) -/

/-- State of the three cursors of the host-context module, together with
the saved previous values of each. `none` is the `NO_CONTEXT` sentinel.
The saved-value stacks realise `push`/`pop` of the generic cursor stack,
which is absent from the excerpt and modelled from the spec: `push`
records the previous value and installs the new one, `pop` restores the
most recently recorded value (LIFO). -/
structure HostContextState where
  contextStack : List (Option Nat)
  contextCurrent : Option Nat
  fiberStack : List (Option Nat)
  fiberCurrent : Option Nat
  rootStack : List (Option Nat)
  rootCurrent : Option Nat
deriving DecidableEq

/-- Modelled from the spec: `push` of the generic cursor stack (absent
from the excerpt) applied to `contextStackCursor` — record the previous
value and install the new one. -/
def pushContextCursor (v : Option Nat) (s : HostContextState) :
    HostContextState :=
  { s with contextStack := s.contextCurrent :: s.contextStack
           contextCurrent := v }

/-- Modelled from the spec: `pop` of the generic cursor stack applied to
`contextStackCursor` — restore the most recently recorded value;
popping an empty stack is a no-op (the generic stack only warns in
development builds). -/
def popContextCursor (s : HostContextState) : HostContextState :=
  match s.contextStack with
  | [] => s
  | h :: t => { s with contextCurrent := h, contextStack := t }

/-- Modelled from the spec: `push` applied to `contextFiberStackCursor`. -/
def pushFiberCursor (v : Option Nat) (s : HostContextState) :
    HostContextState :=
  { s with fiberStack := s.fiberCurrent :: s.fiberStack
           fiberCurrent := v }

/-- Modelled from the spec: `pop` applied to `contextFiberStackCursor`. -/
def popFiberCursor (s : HostContextState) : HostContextState :=
  match s.fiberStack with
  | [] => s
  | h :: t => { s with fiberCurrent := h, fiberStack := t }

/-- Modelled from the spec: `push` applied to `rootInstanceStackCursor`. -/
def pushRootCursor (v : Option Nat) (s : HostContextState) :
    HostContextState :=
  { s with rootStack := s.rootCurrent :: s.rootStack
           rootCurrent := v }

/-- Modelled from the spec: `pop` applied to `rootInstanceStackCursor`. -/
def popRootCursor (s : HostContextState) : HostContextState :=
  match s.rootStack with
  | [] => s
  | h :: t => { s with rootCurrent := h, rootStack := t }

/-- The message of the error thrown by `requiredContext`. -/
def noContextMsg : String :=
  "Expected host context to exist. This error is likely caused by a bug in React. Please file an issue."

/-- `requiredContext(c)`: fatal error on the `NO_CONTEXT` sentinel,
otherwise the established value. -/
def requiredContext (c : Option Nat) : Except String Nat :=
  match c with
  | none => Except.error noContextMsg
  | some v => Except.ok v

/-- `getRootHostContainer()`. -/
def getRootHostContainer (s : HostContextState) : Except String Nat :=
  requiredContext s.rootCurrent

/-- `getHostContext()`. -/
def getHostContext (s : HostContextState) : Except String Nat :=
  requiredContext s.contextCurrent

/-- `pushHostContainer(fiber, nextRootInstance)`; `getRootHostContext`
is the environment-supplied factory mapping a root instance to its host
context. -/
def pushHostContainer (getRootHostContext : Nat → Nat) (fiber root : Nat)
    (s : HostContextState) : HostContextState :=
  let s1 := pushRootCursor (some root) s
  let s2 := pushFiberCursor (some fiber) s1
  let s3 := pushContextCursor none s2
  let nextRootContext := getRootHostContext root
  let s4 := popContextCursor s3
  pushContextCursor (some nextRootContext) s4

/-- `pushHostContext(fiber)`; `getChildHostContext` is the
environment-supplied factory taking the parent context, the fiber's
`type` (given by `fiberType`) and the root instance; the push is skipped
when the computed child context equals the parent context. -/
def pushHostContext (getChildHostContext : Nat → Nat → Nat → Nat)
    (fiberType : Nat → Nat) (fiber : Nat) (s : HostContextState) :
    Except String HostContextState := do
  let rootInstance ← requiredContext s.rootCurrent
  let context ← requiredContext s.contextCurrent
  let nextContext := getChildHostContext context (fiberType fiber) rootInstance
  if context = nextContext then
    pure s
  else
    pure (pushContextCursor (some nextContext) (pushFiberCursor (some fiber) s))

/-- `popHostContext(fiber)`: act only when this fiber provided the
current context. -/
def popHostContext (fiber : Nat) (s : HostContextState) : HostContextState :=
  if s.fiberCurrent ≠ some fiber then s
  else popFiberCursor (popContextCursor s)

/-! ## Concrete states used by witnesses and counterexamples -/

/-- The step heap `f2` of one `markLoop` iteration. -/
def markStepHeap (f : Heap) (parent lane : Nat) : Heap :=
  let f1 := addChildLanes f parent lane
  match (f1 parent).alternate with
  | some alt => addChildLanes f1 alt lane
  | none => f1

/-- The heap after the source-fiber phase of
`markUpdateLaneFromFiberToRoot` (before the parent walk). -/
def sourceMarkHeap (f : Heap) (src lane : Nat) : Heap :=
  let f1 := addLanes f src lane
  match (f1 src).alternate with
  | some alt => addLanes f1 alt lane
  | none => f1

/-- Default fiber: detached, no alternate, not a `HostRoot`. -/
def fiberDefault : FiberNode :=
  { tag := 0, lanes := 0, childLanes := 0, flags := 0, ret := none,
    alternate := none, stateNode := 0 }

/-- Empty module state: no records, no pending lists, empty registry. -/
def concBase : ConcState :=
  { nxt := fun _ => 0, pending := fun _ => none, interleaved := fun _ => none,
    concurrentQueues := none, fibers := fun _ => fiberDefault }

/-- State with one pending record `1` (a one-element circular list) on
queue `0` and an empty side channel. -/
def concC2cex : ConcState :=
  { concBase with
    nxt := fun _ => 1
    pending := updO (fun _ => none) 0 (some 1) }

/-- State whose queue `0` side channel holds the single record `A = 0`
with `A.next = A`. -/
def concC3A : ConcState :=
  { concBase with
    nxt := fun _ => 0
    interleaved := updO (fun _ => none) 0 (some 0) }

/-- Queue-0 state with pending list `[1]` and side list `[2]`, queue
registered. -/
def concC1w : ConcState :=
  { concBase with
    nxt := fun j => j
    pending := updO (fun _ => none) 0 (some 1)
    interleaved := updO (fun _ => none) 0 (some 2)
    concurrentQueues := some [0] }

/-- Two-node tree: fiber `1` (child) returns to fiber `2`, a `HostRoot`
whose root container is `9`. -/
def fiberHeapW : Heap := fun j =>
  if j = 1 then
    { tag := 5, lanes := 0, childLanes := 0, flags := 0, ret := some 2,
      alternate := none, stateNode := 0 }
  else if j = 2 then
    { tag := 3, lanes := 0, childLanes := 0, flags := 0, ret := none,
      alternate := none, stateNode := 9 }
  else fiberDefault

/-- Coordinator state outside any batch, nothing to restore. -/
def batchW : BatchState :=
  { isInsideEventHandler := false, needsRestore := false, flushes := 0,
    restores := 0 }

/-- An operation that dirties the controlled-component state and then
exits abnormally. -/
def batchFnW : BatchOp Nat :=
  fun t => (Except.error (), { t with needsRestore := true })

/-- Context state with no value established on any cursor. -/
def hostCtxEmpty : HostContextState :=
  { contextStack := [], contextCurrent := none, fiberStack := [],
    fiberCurrent := none, rootStack := [], rootCurrent := none }

/-- Context state in which fiber `7` is already the recorded context
provider while the saved stacks hold the sentinel. -/
def hostCtxAliased : HostContextState :=
  { contextStack := [none], contextCurrent := some 5, fiberStack := [none],
    fiberCurrent := some 7, rootStack := [], rootCurrent := some 3 }

/-- Context state with an established root and context and no recorded
provider. -/
def hostCtxW : HostContextState :=
  { contextStack := [], contextCurrent := some 5, fiberStack := [],
    fiberCurrent := none, rootStack := [], rootCurrent := some 3 }

/-! ## Basic lemmas about the helpers -/

theorem upd_apply (f : Nat → Nat) (i v j : Nat) :
    upd f i v j = if j = i then v else f j := rfl

theorem updO_apply {α : Type} (f : Nat → Option α) (i : Nat) (v : Option α)
    (j : Nat) : updO f i v j = if j = i then v else f j := rfl

theorem updF_apply (f : Heap) (i : Nat) (n : FiberNode) (j : Nat) :
    updF f i n j = if j = i then n else f j := rfl

theorem upd_same (f : Nat → Nat) (i v : Nat) : upd f i v i = v := by
  simp [upd]

theorem upd_other (f : Nat → Nat) (i v j : Nat) (h : j ≠ i) :
    upd f i v j = f j := by
  simp [upd, h]

theorem subLane_lor_right (l x : Nat) : subLane l (x ||| l) := by
  unfold subLane
  rw [Nat.lor_comm x l, ← Nat.lor_assoc]
  simp

theorem subLane_merge (l x : Nat) : subLane l (mergeLanes x l) :=
  subLane_lor_right l x

/-! ## Lemmas about `links`, `repCirc` and `readFrom` -/

theorem links_nil (nxt : Nat → Nat) (h : Nat) : links nxt [] h = true := rfl

theorem links_cons (nxt : Nat → Nat) (a h : Nat) (rest : List Nat) :
    links nxt (a :: rest) h = true ↔
      nxt a = rest.headD h ∧ links nxt rest h = true := by
  simp [links]

theorem headD_append (l1 l2 : List Nat) (h : Nat) :
    (l1 ++ l2).headD h = l1.headD (l2.headD h) := by
  cases l1 <;> simp

theorem links_congr (nxt1 nxt2 : Nat → Nat) (l : List Nat) (h : Nat)
    (he : ∀ a ∈ l, nxt1 a = nxt2 a) : links nxt1 l h = links nxt2 l h := by
  induction l with
  | nil => rfl
  | cons a rest ih =>
    simp only [links]
    rw [he a (by simp), ih (fun b hb => he b (by simp [hb]))]

theorem links_append (nxt : Nat → Nat) (l1 l2 : List Nat) (h : Nat) :
    links nxt (l1 ++ l2) h = (links nxt l1 (l2.headD h) && links nxt l2 h) := by
  induction l1 with
  | nil => simp [links]
  | cons a rest ih =>
    simp only [List.cons_append, links, List.append_eq]
    rw [ih, headD_append, Bool.and_assoc]

theorem links_last (nxt : Nat → Nat) (l : List Nat) (h t : Nat)
    (hl : links nxt l h = true) (ht : l.getLast? = some t) : nxt t = h := by
  induction l generalizing t with
  | nil => simp at ht
  | cons a rest ih =>
    rw [links_cons] at hl
    cases rest with
    | nil =>
      simp at ht
      subst ht
      simpa using hl.1
    | cons b r =>
      have : (b :: r).getLast? = some t := by
        rw [← ht, List.getLast?_cons_cons]
      exact ih _ hl.2 this

theorem readFrom_of_links (nxt : Nat → Nat) (l : List Nat) (h : Nat)
    (hl : links nxt l h = true) (hne : l ≠ []) :
    readFrom nxt (l.headD 0) l.length = l := by
  induction l with
  | nil => exact absurd rfl hne
  | cons a rest ih =>
    rw [links_cons] at hl
    simp only [List.headD, List.length_cons, readFrom]
    cases rest with
    | nil => rfl
    | cons b r =>
      have hr := ih hl.2 (by simp)
      simp only [List.headD] at hr hl
      rw [hl.1, hr]

theorem getLast?_append_of_ne_nil (l1 l2 : List Nat) (h : l2 ≠ []) :
    (l1 ++ l2).getLast? = l2.getLast? := by
  cases l2 with
  | nil => exact absurd rfl h
  | cons a r =>
    rw [List.getLast?_append, List.getLast?_eq_getLast (a :: r) (by simp)]
    rfl

/-! ## Lemmas about lane propagation -/

theorem addChildLanes_fields (f : Heap) (i lane j : Nat) :
    ((addChildLanes f i lane) j).ret = (f j).ret ∧
    ((addChildLanes f i lane) j).tag = (f j).tag ∧
    ((addChildLanes f i lane) j).alternate = (f j).alternate ∧
    ((addChildLanes f i lane) j).stateNode = (f j).stateNode ∧
    ((addChildLanes f i lane) j).lanes = (f j).lanes := by
  unfold addChildLanes updF
  by_cases h : j = i <;> simp [h]

theorem addChildLanes_childLanes (f : Heap) (i lane j : Nat) :
    ((addChildLanes f i lane) j).childLanes =
      if j = i then mergeLanes (f j).childLanes lane else (f j).childLanes := by
  unfold addChildLanes updF
  by_cases h : j = i <;> simp [h]

theorem addLanes_fields (f : Heap) (i lane j : Nat) :
    ((addLanes f i lane) j).ret = (f j).ret ∧
    ((addLanes f i lane) j).tag = (f j).tag ∧
    ((addLanes f i lane) j).alternate = (f j).alternate ∧
    ((addLanes f i lane) j).stateNode = (f j).stateNode ∧
    ((addLanes f i lane) j).childLanes = (f j).childLanes := by
  unfold addLanes updF
  by_cases h : j = i <;> simp [h]

theorem addLanes_lanes (f : Heap) (i lane j : Nat) :
    ((addLanes f i lane) j).lanes =
      if j = i then mergeLanes (f j).lanes lane else (f j).lanes := by
  unfold addLanes updF
  by_cases h : j = i <;> simp [h]

theorem markLoop_succ (fuel : Nat) (f : Heap) (node lane parent : Nat)
    (h : (f node).ret = some parent) :
    markLoop (fuel + 1) f node lane =
      markLoop fuel (markStepHeap f parent lane) parent lane := by
  simp only [markLoop, h]
  rfl

theorem markStepHeap_fields (f : Heap) (parent lane j : Nat) :
    ((markStepHeap f parent lane) j).ret = (f j).ret ∧
    ((markStepHeap f parent lane) j).tag = (f j).tag ∧
    ((markStepHeap f parent lane) j).alternate = (f j).alternate ∧
    ((markStepHeap f parent lane) j).stateNode = (f j).stateNode ∧
    ((markStepHeap f parent lane) j).lanes = (f j).lanes := by
  unfold markStepHeap
  cases h : ((addChildLanes f parent lane) parent).alternate with
  | none => simp [addChildLanes_fields]
  | some alt =>
    simp only
    refine ⟨?_, ?_, ?_, ?_, ?_⟩ <;>
      simp [(addChildLanes_fields ..).1, (addChildLanes_fields ..).2.1,
        (addChildLanes_fields ..).2.2.1, (addChildLanes_fields ..).2.2.2.1,
        (addChildLanes_fields ..).2.2.2.2]

theorem markLoop_fields (fuel : Nat) (f : Heap) (node lane j : Nat) :
    (((markLoop fuel f node lane).2) j).ret = (f j).ret ∧
    (((markLoop fuel f node lane).2) j).tag = (f j).tag ∧
    (((markLoop fuel f node lane).2) j).alternate = (f j).alternate ∧
    (((markLoop fuel f node lane).2) j).stateNode = (f j).stateNode ∧
    (((markLoop fuel f node lane).2) j).lanes = (f j).lanes := by
  induction fuel generalizing f node with
  | zero => simp [markLoop]
  | succ fuel ih =>
    cases h : (f node).ret with
    | none => simp [markLoop, h]
    | some parent =>
      rw [markLoop_succ fuel f node lane parent h]
      have hs := markStepHeap_fields f parent lane j
      have hi := ih (markStepHeap f parent lane) parent
      exact ⟨hi.1.trans hs.1, hi.2.1.trans hs.2.1, hi.2.2.1.trans hs.2.2.1,
        hi.2.2.2.1.trans hs.2.2.2.1, hi.2.2.2.2.trans hs.2.2.2.2⟩

theorem chainToRoot_congr (f1 f2 : Heap) (fuel : Nat)
    (he : ∀ j, (f1 j).ret = (f2 j).ret) :
    ∀ i, chainToRoot f1 fuel i = chainToRoot f2 fuel i := by
  induction fuel with
  | zero => intro i; rfl
  | succ fuel ih =>
    intro i
    unfold chainToRoot
    rw [he i]
    cases (f2 i).ret with
    | none => rfl
    | some p => simp [ih p]

theorem chainToRoot_head (f : Heap) (fuel i : Nat) (ch : List Nat)
    (h : chainToRoot f fuel i = some ch) : ∃ t, ch = i :: t := by
  cases fuel with
  | zero => simp [chainToRoot] at h
  | succ fuel =>
    unfold chainToRoot at h
    cases hr : (f i).ret with
    | none => rw [hr] at h; exact ⟨[], by simpa using h.symm⟩
    | some p =>
      rw [hr] at h
      simp only [Option.map_eq_some'] at h
      obtain ⟨ch', hc, hch⟩ := h
      exact ⟨ch', hch.symm⟩

theorem chainToRoot_ne_nil (f : Heap) (fuel i : Nat) (ch : List Nat)
    (h : chainToRoot f fuel i = some ch) : ch ≠ [] := by
  obtain ⟨t, rfl⟩ := chainToRoot_head f fuel i ch h
  simp

theorem markStepHeap_ret (f : Heap) (parent lane j : Nat) :
    ((markStepHeap f parent lane) j).ret = (f j).ret :=
  (markStepHeap_fields f parent lane j).1

theorem chainToRoot_markStep (f : Heap) (parent lane fuel i : Nat) :
    chainToRoot (markStepHeap f parent lane) fuel i = chainToRoot f fuel i :=
  chainToRoot_congr (markStepHeap f parent lane) f fuel
    (fun j => markStepHeap_ret f parent lane j) i

theorem markLoop_result (fuel : Nat) (f : Heap) (node lane lastN : Nat)
    (ch : List Nat) (hch : chainToRoot f fuel node = some ch)
    (hlast : ch.getLast? = some lastN) :
    (markLoop fuel f node lane).1 =
      (if (f lastN).tag = HostRoot then some ((f lastN).stateNode) else none) := by
  induction fuel generalizing f node ch with
  | zero => simp [chainToRoot] at hch
  | succ fuel ih =>
    unfold chainToRoot at hch
    cases hr : (f node).ret with
    | none =>
      rw [hr] at hch
      simp at hch
      subst hch
      simp at hlast
      subst hlast
      unfold markLoop
      rw [hr]
    | some parent =>
      rw [hr] at hch
      simp only [Option.map_eq_some'] at hch
      obtain ⟨ch', hc, hcons⟩ := hch
      rw [markLoop_succ fuel f node lane parent hr]
      have hch2 : chainToRoot (markStepHeap f parent lane) fuel parent = some ch' := by
        rw [chainToRoot_markStep]; exact hc
      have hne : ch' ≠ [] := chainToRoot_ne_nil f fuel parent ch' hc
      have hlast' : ch'.getLast? = some lastN := by
        rw [← hcons] at hlast
        cases ch' with
        | nil => exact absurd rfl hne
        | cons b r => rw [← hlast, List.getLast?_cons_cons]
      have := ih (markStepHeap f parent lane) parent ch' hch2 hlast'
      rw [this]
      have hf := markStepHeap_fields f parent lane lastN
      rw [hf.2.1, hf.2.2.2.1]

theorem addChildLanes_same (f : Heap) (i lane : Nat) :
    ((addChildLanes f i lane) i).childLanes = mergeLanes (f i).childLanes lane := by
  simp [addChildLanes, updF]

theorem addChildLanes_pres (f : Heap) (i lane j : Nat)
    (h : subLane lane ((f j).childLanes)) :
    subLane lane (((addChildLanes f i lane) j).childLanes) := by
  rw [addChildLanes_childLanes]
  split
  · exact subLane_merge lane _
  · exact h

theorem markStepHeap_child_superset (f : Heap) (parent lane j : Nat)
    (h : subLane lane ((f j).childLanes)) :
    subLane lane (((markStepHeap f parent lane) j).childLanes) := by
  unfold markStepHeap
  cases ha : ((addChildLanes f parent lane) parent).alternate with
  | none => exact addChildLanes_pres f parent lane j h
  | some alt =>
    exact addChildLanes_pres _ alt lane j (addChildLanes_pres f parent lane j h)

theorem markLoop_child_mono (fuel : Nat) (f : Heap) (node lane j : Nat)
    (h : subLane lane ((f j).childLanes)) :
    subLane lane (((markLoop fuel f node lane).2 j).childLanes) := by
  induction fuel generalizing f node with
  | zero => simpa [markLoop] using h
  | succ fuel ih =>
    cases hr : (f node).ret with
    | none =>
      unfold markLoop
      rw [hr]
      exact h
    | some parent =>
      rw [markLoop_succ fuel f node lane parent hr]
      exact ih (markStepHeap f parent lane) parent
        (markStepHeap_child_superset f parent lane j h)

theorem markStepHeap_parent_superset (f : Heap) (parent lane : Nat) :
    subLane lane (((markStepHeap f parent lane) parent).childLanes) := by
  unfold markStepHeap
  cases ha : ((addChildLanes f parent lane) parent).alternate with
  | none =>
    rw [addChildLanes_same]
    exact subLane_merge lane _
  | some alt =>
    refine addChildLanes_pres _ alt lane parent ?_
    rw [addChildLanes_same]
    exact subLane_merge lane _

theorem markStepHeap_alt_superset (f : Heap) (parent lane alt : Nat)
    (ha : (f parent).alternate = some alt) :
    subLane lane (((markStepHeap f parent lane) alt).childLanes) := by
  unfold markStepHeap
  have ha2 : ((addChildLanes f parent lane) parent).alternate = some alt := by
    rw [(addChildLanes_fields f parent lane parent).2.2.1]; exact ha
  rw [ha2]
  rw [addChildLanes_same]
  exact subLane_merge lane _

theorem markLoop_marks (fuel : Nat) (f : Heap) (node lane : Nat)
    (anc : List Nat) (hch : chainToRoot f fuel node = some (node :: anc)) :
    ∀ a ∈ anc,
      subLane lane (((markLoop fuel f node lane).2 a).childLanes) ∧
      ∀ b, (f a).alternate = some b →
        subLane lane (((markLoop fuel f node lane).2 b).childLanes) := by
  induction fuel generalizing f node anc with
  | zero => simp [chainToRoot] at hch
  | succ fuel ih =>
    unfold chainToRoot at hch
    cases hr : (f node).ret with
    | none =>
      rw [hr] at hch
      simp at hch
      subst hch
      intro a ha
      simp at ha
    | some parent =>
      rw [hr] at hch
      simp only [Option.map_eq_some'] at hch
      obtain ⟨ch', hc, hcons⟩ := hch
      injection hcons with _ h2
      subst h2
      obtain ⟨anc', rfl⟩ := chainToRoot_head f fuel parent ch' hc
      rw [markLoop_succ fuel f node lane parent hr]
      have hch2 : chainToRoot (markStepHeap f parent lane) fuel parent =
          some (parent :: anc') := by
        rw [chainToRoot_markStep]; exact hc
      intro a ha
      rcases List.mem_cons.mp ha with rfl | hmem
      · constructor
        · exact markLoop_child_mono fuel _ a lane a
            (markStepHeap_parent_superset f a lane)
        · intro b hb
          exact markLoop_child_mono fuel _ a lane b
            (markStepHeap_alt_superset f a lane b hb)
      · have hih := ih (markStepHeap f parent lane) parent anc' hch2 a hmem
        refine ⟨hih.1, fun b hb => hih.2 b ?_⟩
        rw [(markStepHeap_fields f parent lane a).2.2.1]
        exact hb

theorem addChildLanes_other (f : Heap) (i lane j : Nat) (h : j ≠ i) :
    ((addChildLanes f i lane) j).childLanes = (f j).childLanes := by
  rw [addChildLanes_childLanes, if_neg h]

theorem markStepHeap_frame (f : Heap) (parent lane j : Nat) (h1 : j ≠ parent)
    (h2 : (f parent).alternate ≠ some j) :
    ((markStepHeap f parent lane) j).childLanes = (f j).childLanes := by
  unfold markStepHeap
  cases ha : ((addChildLanes f parent lane) parent).alternate with
  | none => exact addChildLanes_other f parent lane j h1
  | some alt =>
    rw [(addChildLanes_fields f parent lane parent).2.2.1] at ha
    have halt : j ≠ alt := by
      intro hje
      exact h2 (by rw [ha, hje])
    rw [addChildLanes_other _ alt lane j halt]
    exact addChildLanes_other f parent lane j h1

theorem markLoop_frame (fuel : Nat) (f : Heap) (node lane : Nat)
    (anc : List Nat) (hch : chainToRoot f fuel node = some (node :: anc))
    (j : Nat) (hj : j ∉ anc)
    (hja : ∀ a ∈ anc, (f a).alternate ≠ some j) :
    (((markLoop fuel f node lane).2 j).childLanes) = (f j).childLanes := by
  induction fuel generalizing f node anc with
  | zero => simp [chainToRoot] at hch
  | succ fuel ih =>
    unfold chainToRoot at hch
    cases hr : (f node).ret with
    | none =>
      unfold markLoop
      rw [hr]
    | some parent =>
      rw [hr] at hch
      simp only [Option.map_eq_some'] at hch
      obtain ⟨ch', hc, hcons⟩ := hch
      injection hcons with _ h2
      subst h2
      obtain ⟨anc', rfl⟩ := chainToRoot_head f fuel parent ch' hc
      rw [markLoop_succ fuel f node lane parent hr]
      have hparent : parent ∈ (parent :: anc' : List Nat) := by simp
      have hch2 : chainToRoot (markStepHeap f parent lane) fuel parent =
          some (parent :: anc') := by
        rw [chainToRoot_markStep]; exact hc
      have hjp : j ≠ parent := by
        intro hje
        exact hj (by rw [hje]; exact hparent)
      have hstep := markStepHeap_frame f parent lane j hjp (hja parent hparent)
      have hrec := ih (markStepHeap f parent lane) parent anc' hch2
        (fun hmem => hj (by simp [hmem]))
        (fun a hmem => by
          rw [(markStepHeap_fields f parent lane a).2.2.1]
          exact hja a (by simp [hmem]))
      rw [hrec, hstep]

theorem markUpdateLane_eq (fuel : Nat) (f : Heap) (src lane : Nat) :
    markUpdateLaneFromFiberToRoot fuel f src lane =
      markLoop fuel (sourceMarkHeap f src lane) src lane := rfl

theorem addLanes_same (f : Heap) (i lane : Nat) :
    ((addLanes f i lane) i).lanes = mergeLanes (f i).lanes lane := by
  simp [addLanes, updF]

theorem addLanes_pres (f : Heap) (i lane j : Nat)
    (h : subLane lane ((f j).lanes)) :
    subLane lane (((addLanes f i lane) j).lanes) := by
  rw [addLanes_lanes]
  split
  · exact subLane_merge lane _
  · exact h

theorem addLanes_other (f : Heap) (i lane j : Nat) (h : j ≠ i) :
    ((addLanes f i lane) j).lanes = (f j).lanes := by
  rw [addLanes_lanes, if_neg h]

theorem sourceMarkHeap_fields (f : Heap) (src lane j : Nat) :
    ((sourceMarkHeap f src lane) j).ret = (f j).ret ∧
    ((sourceMarkHeap f src lane) j).tag = (f j).tag ∧
    ((sourceMarkHeap f src lane) j).alternate = (f j).alternate ∧
    ((sourceMarkHeap f src lane) j).stateNode = (f j).stateNode ∧
    ((sourceMarkHeap f src lane) j).childLanes = (f j).childLanes := by
  unfold sourceMarkHeap
  cases ha : ((addLanes f src lane) src).alternate with
  | none => exact addLanes_fields f src lane j
  | some alt =>
    have h1 := addLanes_fields (addLanes f src lane) alt lane j
    have h2 := addLanes_fields f src lane j
    exact ⟨h1.1.trans h2.1, h1.2.1.trans h2.2.1, h1.2.2.1.trans h2.2.2.1,
      h1.2.2.2.1.trans h2.2.2.2.1, h1.2.2.2.2.trans h2.2.2.2.2⟩

theorem sourceMarkHeap_src (f : Heap) (src lane : Nat) :
    subLane lane (((sourceMarkHeap f src lane) src).lanes) := by
  unfold sourceMarkHeap
  cases ha : ((addLanes f src lane) src).alternate with
  | none =>
    rw [addLanes_same]
    exact subLane_merge lane _
  | some alt =>
    refine addLanes_pres _ alt lane src ?_
    rw [addLanes_same]
    exact subLane_merge lane _

theorem sourceMarkHeap_alt (f : Heap) (src lane alt : Nat)
    (ha : (f src).alternate = some alt) :
    subLane lane (((sourceMarkHeap f src lane) alt).lanes) := by
  unfold sourceMarkHeap
  have ha2 : ((addLanes f src lane) src).alternate = some alt := by
    rw [(addLanes_fields f src lane src).2.2.1]; exact ha
  rw [ha2]
  rw [addLanes_same]
  exact subLane_merge lane _

theorem sourceMarkHeap_lanes_frame (f : Heap) (src lane j : Nat)
    (h1 : j ≠ src) (h2 : (f src).alternate ≠ some j) :
    ((sourceMarkHeap f src lane) j).lanes = (f j).lanes := by
  unfold sourceMarkHeap
  cases ha : ((addLanes f src lane) src).alternate with
  | none => exact addLanes_other f src lane j h1
  | some alt =>
    rw [(addLanes_fields f src lane src).2.2.1] at ha
    have halt : j ≠ alt := by
      intro hje
      exact h2 (by rw [ha, hje])
    rw [addLanes_other _ alt lane j halt]
    exact addLanes_other f src lane j h1

theorem chainToRoot_sourceMark (f : Heap) (src lane fuel i : Nat) :
    chainToRoot (sourceMarkHeap f src lane) fuel i = chainToRoot f fuel i :=
  chainToRoot_congr (sourceMarkHeap f src lane) f fuel
    (fun j => (sourceMarkHeap_fields f src lane j).1) i

/-- C4: after lane propagation from a node, the node's `lanes` (and its
alternate's) include the lane, every proper ancestor's `childLanes` (and
its alternate's, if present) include the lane, and the propagation
leaves the node's own `childLanes` and each ancestor's own `lanes`
unchanged (given that the node is not aliased with an ancestor or an
ancestor's alternate, and vice versa). -/
theorem claim_C4_markUpdateLane_propagation (fuel : Nat) (f : Heap)
    (src lane : Nat) (anc : List Nat)
    (hch : chainToRoot f fuel src = some (src :: anc)) :
    subLane lane (((markUpdateLaneFromFiberToRoot fuel f src lane).2 src).lanes) ∧
    (∀ b, (f src).alternate = some b →
      subLane lane (((markUpdateLaneFromFiberToRoot fuel f src lane).2 b).lanes)) ∧
    (∀ a ∈ anc,
      subLane lane (((markUpdateLaneFromFiberToRoot fuel f src lane).2 a).childLanes) ∧
      ∀ b, (f a).alternate = some b →
        subLane lane (((markUpdateLaneFromFiberToRoot fuel f src lane).2 b).childLanes)) ∧
    (src ∉ anc → (∀ a ∈ anc, (f a).alternate ≠ some src) →
      ((markUpdateLaneFromFiberToRoot fuel f src lane).2 src).childLanes =
        (f src).childLanes) ∧
    (∀ a ∈ anc, a ≠ src → (f src).alternate ≠ some a →
      ((markUpdateLaneFromFiberToRoot fuel f src lane).2 a).lanes =
        (f a).lanes) := by
  rw [markUpdateLane_eq]
  set g := sourceMarkHeap f src lane with hg
  have hch2 : chainToRoot g fuel src = some (src :: anc) := by
    rw [hg, chainToRoot_sourceMark]; exact hch
  refine ⟨?_, ?_, ?_, ?_, ?_⟩
  · rw [(markLoop_fields fuel g src lane src).2.2.2.2]
    exact sourceMarkHeap_src f src lane
  · intro b hb
    rw [(markLoop_fields fuel g src lane b).2.2.2.2]
    exact sourceMarkHeap_alt f src lane b hb
  · intro a ha
    have hmk := markLoop_marks fuel g src lane anc hch2 a ha
    refine ⟨hmk.1, fun b hb => hmk.2 b ?_⟩
    rw [(sourceMarkHeap_fields f src lane a).2.2.1]
    exact hb
  · intro h1 h2
    have hfr := markLoop_frame fuel g src lane anc hch2 src h1
      (fun a ha => by
        rw [(sourceMarkHeap_fields f src lane a).2.2.1]
        exact h2 a ha)
    rw [hfr]
    exact (sourceMarkHeap_fields f src lane src).2.2.2.2
  · intro a ha hne halt
    rw [(markLoop_fields fuel g src lane a).2.2.2.2]
    exact sourceMarkHeap_lanes_frame f src lane a hne halt

/-- C5: lane propagation returns the root container exactly when the
last node reached by following `return` pointers carries the `HostRoot`
tag; otherwise it returns absent. -/
theorem claim_C5_markUpdateLane_root (fuel : Nat) (f : Heap)
    (src lane lastN : Nat) (ch : List Nat)
    (hch : chainToRoot f fuel src = some ch)
    (hlast : ch.getLast? = some lastN) :
    (markUpdateLaneFromFiberToRoot fuel f src lane).1 =
      (if (f lastN).tag = HostRoot then some ((f lastN).stateNode) else none) ∧
    ((markUpdateLaneFromFiberToRoot fuel f src lane).1.isSome ↔
      (f lastN).tag = HostRoot) := by
  rw [markUpdateLane_eq]
  set g := sourceMarkHeap f src lane with hg
  have hch2 : chainToRoot g fuel src = some ch := by
    rw [hg, chainToRoot_sourceMark]; exact hch
  have hres := markLoop_result fuel g src lane lastN ch hch2 hlast
  have htag : (g lastN).tag = (f lastN).tag :=
    (sourceMarkHeap_fields f src lane lastN).2.1
  have hsn : (g lastN).stateNode = (f lastN).stateNode :=
    (sourceMarkHeap_fields f src lane lastN).2.2.2.1
  rw [hres, htag, hsn]
  constructor
  · rfl
  · split
    · simpa
    · simpa

/-! ## Representation lemmas for enqueue and the merge step -/

theorem repCirc_nil (nxt : Nat → Nat) : repCirc nxt none [] := by
  exact ⟨rfl, rfl⟩

theorem repCirc_tail_none (nxt : Nat → Nat) (tail : Option Nat)
    (h : repCirc nxt tail []) : tail = none := by
  simpa using h.1

theorem repCirc_tail_some (nxt : Nat → Nat) (tail : Option Nat) (l : List Nat)
    (h : repCirc nxt tail l) (hne : l ≠ []) :
    tail = some (l.getLast hne) := by
  rw [h.1, List.getLast?_eq_getLast l hne]

theorem links_upd_congr (nxt : Nat → Nat) (l : List Nat) (h : Nat)
    (u v : Nat) (hu : u ∉ l) :
    links (upd nxt u v) l h = links nxt l h :=
  links_congr (upd nxt u v) nxt l h
    (fun a ha => upd_other nxt u v a (fun he => hu (he ▸ ha)))

theorem enqueueHook_pending (fuel fiber q u lane : Nat) (s : ConcState) :
    (enqueueConcurrentHookUpdate fuel fiber q u lane s).2.pending = s.pending := by
  cases hi : s.interleaved q with
  | none =>
    cases hc : s.concurrentQueues with
    | none => simp [enqueueConcurrentHookUpdate, hi, pushConcurrentUpdateQueue, hc]
    | some l => simp [enqueueConcurrentHookUpdate, hi, pushConcurrentUpdateQueue, hc]
  | some t => simp [enqueueConcurrentHookUpdate, hi]

theorem enqueueHook_interleaved (fuel fiber q u lane : Nat) (s : ConcState) :
    (enqueueConcurrentHookUpdate fuel fiber q u lane s).2.interleaved =
      updO s.interleaved q (some u) := by
  cases hi : s.interleaved q with
  | none =>
    cases hc : s.concurrentQueues with
    | none => simp [enqueueConcurrentHookUpdate, hi, pushConcurrentUpdateQueue, hc]
    | some l => simp [enqueueConcurrentHookUpdate, hi, pushConcurrentUpdateQueue, hc]
  | some t => simp [enqueueConcurrentHookUpdate, hi]

theorem enqueueHook_nxt_none (fuel fiber q u lane : Nat) (s : ConcState)
    (hi : s.interleaved q = none) :
    (enqueueConcurrentHookUpdate fuel fiber q u lane s).2.nxt = upd s.nxt u u := by
  cases hc : s.concurrentQueues with
  | none => simp [enqueueConcurrentHookUpdate, hi, pushConcurrentUpdateQueue, hc]
  | some l => simp [enqueueConcurrentHookUpdate, hi, pushConcurrentUpdateQueue, hc]

theorem enqueueHook_nxt_some (fuel fiber q u lane t : Nat) (s : ConcState)
    (hi : s.interleaved q = some t) :
    (enqueueConcurrentHookUpdate fuel fiber q u lane s).2.nxt =
      upd (upd s.nxt u (s.nxt t)) t u := by
  simp [enqueueConcurrentHookUpdate, hi]

theorem enqueueHook_registry_none (fuel fiber q u lane : Nat) (s : ConcState)
    (hi : s.interleaved q = none) (hc : s.concurrentQueues = none) :
    (enqueueConcurrentHookUpdate fuel fiber q u lane s).2.concurrentQueues =
      some [q] := by
  simp [enqueueConcurrentHookUpdate, hi, pushConcurrentUpdateQueue, hc]

theorem enqueueHook_registry_some (fuel fiber q u lane t : Nat) (s : ConcState)
    (hi : s.interleaved q = some t) :
    (enqueueConcurrentHookUpdate fuel fiber q u lane s).2.concurrentQueues =
      s.concurrentQueues := by
  simp [enqueueConcurrentHookUpdate, hi]

theorem enq_step_rep (fuel fiber q u lane : Nat) (s : ConcState)
    (P S : List Nat)
    (hP : repCirc s.nxt (s.pending q) P)
    (hS : repCirc s.nxt (s.interleaved q) S)
    (hnd : (P ++ (S ++ [u])).Nodup) :
    repCirc (enqueueConcurrentHookUpdate fuel fiber q u lane s).2.nxt
      ((enqueueConcurrentHookUpdate fuel fiber q u lane s).2.pending q) P ∧
    repCirc (enqueueConcurrentHookUpdate fuel fiber q u lane s).2.nxt
      ((enqueueConcurrentHookUpdate fuel fiber q u lane s).2.interleaved q)
      (S ++ [u]) := by
  have hpend := enqueueHook_pending fuel fiber q u lane s
  have hint := enqueueHook_interleaved fuel fiber q u lane s
  have hnodup := hnd
  rw [List.nodup_append] at hnodup
  obtain ⟨hndP, hndSu, hdisj⟩ := hnodup
  rw [List.nodup_append] at hndSu
  obtain ⟨hndS, -, hdisjSu⟩ := hndSu
  have huP : u ∉ P := fun hm => hdisj hm (by simp)
  have huS : u ∉ S := fun hm => hdisjSu hm (by simp)
  by_cases hSe : S = []
  · subst hSe
    have hinone : s.interleaved q = none := repCirc_tail_none _ _ hS
    have hnxt := enqueueHook_nxt_none fuel fiber q u lane s hinone
    constructor
    · refine ⟨by rw [hpend]; exact hP.1, ?_⟩
      rw [hnxt, links_upd_congr s.nxt P (P.headD 0) u u huP]
      exact hP.2
    · refine ⟨by rw [hint]; simp [updO], ?_⟩
      rw [hnxt]
      simp [links, upd]
  · have hSne : S ≠ [] := hSe
    set t := S.getLast hSne with ht
    have hisome : s.interleaved q = some t := repCirc_tail_some _ _ _ hS hSne
    have hnxt := enqueueHook_nxt_some fuel fiber q u lane t s hisome
    have htS : t ∈ S := List.getLast_mem hSne
    have hut : u ≠ t := fun he => huS (he ▸ htS)
    have hSdecomp : S.dropLast ++ [t] = S := List.dropLast_append_getLast hSne
    have hndS0 : t ∉ S.dropLast := by
      have h2 := hndS
      rw [← hSdecomp, List.nodup_append] at h2
      exact fun hm => h2.2.2 hm (by simp)
    have hnxt_u : (enqueueConcurrentHookUpdate fuel fiber q u lane s).2.nxt u =
        s.nxt t := by
      rw [hnxt, upd_other _ t u u hut, upd_same]
    have hnxt_t : (enqueueConcurrentHookUpdate fuel fiber q u lane s).2.nxt t =
        u := by
      rw [hnxt, upd_same]
    constructor
    · refine ⟨by rw [hpend]; exact hP.1, ?_⟩
      have hnoT : t ∉ P := fun hm => hdisj hm (by simp [htS])
      rw [hnxt]
      rw [links_congr _ s.nxt P (P.headD 0) (fun a ha => by
        rw [upd_other _ t u a (fun he => hnoT (he ▸ ha)),
          upd_other _ u (s.nxt t) a (fun he => huP (he ▸ ha))])]
      exact hP.2
    · refine ⟨by rw [hint]; simp [updO, getLast?_append_of_ne_nil S [u] (by simp)], ?_⟩
      have hhead : (S ++ [u]).headD 0 = S.headD 0 := by
        rw [headD_append]
        cases hc2 : S with
        | nil => exact absurd hc2 hSne
        | cons a r => rfl
      rw [hhead, links_append]
      rw [Bool.and_eq_true]
      constructor
      · -- links from S into u: interior links of S preserved, tail now points at u
        rw [← hSdecomp, links_append, Bool.and_eq_true]
        constructor
        · have hS0sub : ∀ a ∈ S.dropLast, a ∈ S := by
            intro a ha
            rw [← hSdecomp]
            exact List.mem_append_left _ ha
          rw [hnxt]
          rw [links_congr _ s.nxt _ _ (fun a ha => by
            rw [upd_other _ t u a (fun he => hndS0 (he ▸ ha)),
              upd_other _ u (s.nxt t) a (fun he => huS (he ▸ hS0sub a ha))])]
          have hlS := hS.2
          rw [← hSdecomp, links_append, Bool.and_eq_true] at hlS
          have h3 := hlS.1
          simpa using h3
        · simp [links, hnxt_t]
      · -- the new tail u cycles back to the head of S
        simp only [links, Bool.and_eq_true, beq_iff_eq]
        refine ⟨?_, trivial⟩
        simp only [List.headD]
        rw [hnxt_u]
        exact links_last s.nxt S (S.headD 0) t hS.2
          (by rw [List.getLast?_eq_getLast S hSne])

theorem enqueueN_nil (fuel fiber q lane : Nat) (s : ConcState) :
    enqueueN fuel fiber q lane [] s = s := rfl

theorem enqueueN_cons (fuel fiber q lane u : Nat) (us : List Nat)
    (s : ConcState) :
    enqueueN fuel fiber q lane (u :: us) s =
      enqueueN fuel fiber q lane us
        (enqueueConcurrentHookUpdate fuel fiber q u lane s).2 := rfl

theorem enqueueN_rep (fuel fiber q lane : Nat) (us : List Nat) :
    ∀ (s : ConcState) (P S : List Nat),
    repCirc s.nxt (s.pending q) P →
    repCirc s.nxt (s.interleaved q) S →
    (S = [] → s.concurrentQueues = none) →
    (S ≠ [] → s.concurrentQueues = some [q]) →
    (P ++ (S ++ us)).Nodup →
    repCirc (enqueueN fuel fiber q lane us s).nxt
      ((enqueueN fuel fiber q lane us s).pending q) P ∧
    repCirc (enqueueN fuel fiber q lane us s).nxt
      ((enqueueN fuel fiber q lane us s).interleaved q) (S ++ us) ∧
    (S ++ us = [] → (enqueueN fuel fiber q lane us s).concurrentQueues = none) ∧
    (S ++ us ≠ [] →
      (enqueueN fuel fiber q lane us s).concurrentQueues = some [q]) := by
  induction us with
  | nil =>
    intro s P S hP hS hr0 hr1 hnd
    simp only [enqueueN_nil, List.append_nil]
    exact ⟨hP, hS, hr0, hr1⟩
  | cons u us ih =>
    intro s P S hP hS hr0 hr1 hnd
    rw [enqueueN_cons]
    have hnd' : (P ++ (S ++ [u])).Nodup := by
      have h2 : P ++ (S ++ u :: us) = (P ++ (S ++ [u])) ++ us := by simp
      rw [h2] at hnd
      exact (List.nodup_append.mp hnd).1
    have hstep := enq_step_rep fuel fiber q u lane s P S hP hS hnd'
    have hint := enqueueHook_interleaved fuel fiber q u lane s
    have hreg0 : S ++ [u] = [] → False := by simp
    have hreg1 :
        (enqueueConcurrentHookUpdate fuel fiber q u lane s).2.concurrentQueues =
          some [q] := by
      by_cases hSe : S = []
      · subst hSe
        exact enqueueHook_registry_none fuel fiber q u lane s
          (repCirc_tail_none _ _ hS) (hr0 rfl)
      · have hSne : S ≠ [] := hSe
        rw [enqueueHook_registry_some fuel fiber q u lane (S.getLast hSne) s
          (repCirc_tail_some _ _ _ hS hSne)]
        exact hr1 hSne
    have hihnd : (P ++ ((S ++ [u]) ++ us)).Nodup := by
      have h2 : P ++ (S ++ u :: us) = P ++ ((S ++ [u]) ++ us) := by simp
      rw [h2] at hnd
      exact hnd
    have hih := ih (enqueueConcurrentHookUpdate fuel fiber q u lane s).2 P
      (S ++ [u]) hstep.1 hstep.2 (fun he => absurd he (by simp))
      (fun _ => hreg1) hihnd
    have hassoc : (S ++ [u]) ++ us = S ++ u :: us := by simp
    rw [hassoc] at hih
    exact hih

theorem transfer_rep (s : ConcState) (q : Nat) (P S : List Nat)
    (hP : repCirc s.nxt (s.pending q) P)
    (hS : repCirc s.nxt (s.interleaved q) S)
    (hnd : (P ++ S).Nodup) :
    repCirc (transferQueue s q).nxt ((transferQueue s q).pending q) (P ++ S) ∧
    (transferQueue s q).interleaved q = none ∧
    (transferQueue s q).concurrentQueues = s.concurrentQueues := by
  by_cases hSe : S = []
  · subst hSe
    have hinone : s.interleaved q = none := repCirc_tail_none _ _ hS
    unfold transferQueue
    rw [hinone]
    simpa using ⟨hP, hinone⟩
  · have hSne : S ≠ [] := hSe
    have hisome : s.interleaved q = some (S.getLast hSne) :=
      repCirc_tail_some _ _ _ hS hSne
    set t := S.getLast hSne with ht
    have htS : t ∈ S := List.getLast_mem hSne
    have hndP := (List.nodup_append.mp hnd).1
    have hndS := (List.nodup_append.mp hnd).2.1
    have hdisj := (List.nodup_append.mp hnd).2.2
    have hSdecomp : S.dropLast ++ [t] = S := List.dropLast_append_getLast hSne
    have hndS0 : t ∉ S.dropLast := by
      have h2 := hndS
      rw [← hSdecomp, List.nodup_append] at h2
      exact fun hm => h2.2.2 hm (by simp)
    have hcycS : s.nxt t = S.headD 0 :=
      links_last s.nxt S (S.headD 0) t hS.2
        (by rw [List.getLast?_eq_getLast S hSne])
    by_cases hPe : P = []
    · subst hPe
      have hpnone : s.pending q = none := repCirc_tail_none _ _ hP
      unfold transferQueue
      rw [hisome]
      simp only [updO, hpnone, if_pos rfl]
      refine ⟨⟨?_, ?_⟩, ?_, ?_⟩
      · simp [ht, List.getLast?_eq_getLast S hSne]
      · simpa using hS.2
      · simp
      · trivial
    · have hPne : P ≠ [] := hPe
      have hpsome : s.pending q = some (P.getLast hPne) :=
        repCirc_tail_some _ _ _ hP hPne
      set p := P.getLast hPne with hp
      have hpP : p ∈ P := List.getLast_mem hPne
      have hPdecomp : P.dropLast ++ [p] = P := List.dropLast_append_getLast hPne
      have hndP0 : p ∉ P.dropLast := by
        have h2 := hndP
        rw [← hPdecomp, List.nodup_append] at h2
        exact fun hm => h2.2.2 hm (by simp)
      have hpt : p ≠ t := fun he => hdisj hpP (he ▸ htS)
      have htp : t ≠ p := fun he => hpt he.symm
      have hcycP : s.nxt p = P.headD 0 :=
        links_last s.nxt P (P.headD 0) p hP.2
          (by rw [List.getLast?_eq_getLast P hPne])
      unfold transferQueue
      rw [hisome]
      simp only [updO, hpsome, ← hp]
      set nxt2 := upd (upd s.nxt p (s.nxt t)) t (s.nxt p) with hn2
      have hnxt2_t : nxt2 t = s.nxt p := by
        rw [hn2, upd_same]
      have hnxt2_p : nxt2 p = s.nxt t := by
        rw [hn2, upd_other _ t _ p hpt, upd_same]
      have hnxt2_frame : ∀ a, a ≠ t → a ≠ p → nxt2 a = s.nxt a := by
        intro a hat hap
        rw [hn2, upd_other _ t _ a hat, upd_other _ p _ a hap]
      refine ⟨⟨?_, ?_⟩, ?_, ?_⟩
      · simp [getLast?_append_of_ne_nil P S hSne, ht,
          List.getLast?_eq_getLast S hSne]
      · -- the spliced links: P runs into the head of S, S cycles to the head of P
        have hheadPS : (P ++ S).headD 0 = P.headD 0 := by
          rw [headD_append]
          cases hc2 : P with
          | nil => exact absurd hc2 hPne
          | cons a r => rfl
        rw [hheadPS, links_append, Bool.and_eq_true]
        constructor
        · -- links of P, last element re-pointed at the head of S
          rw [← hPdecomp, links_append, Bool.and_eq_true]
          constructor
          · have hP0sub : ∀ a ∈ P.dropLast, a ∈ P := by
              intro a ha
              rw [← hPdecomp]
              exact List.mem_append_left _ ha
            rw [links_congr _ s.nxt _ _ (fun a ha => by
              have hat : a ≠ t := fun he => hdisj (hP0sub a ha) (he ▸ htS)
              have hap : a ≠ p := fun he => hndP0 (he ▸ ha)
              exact hnxt2_frame a hat hap)]
            have hlP := hP.2
            rw [← hPdecomp, links_append, Bool.and_eq_true] at hlP
            have h3 := hlP.1
            simpa using h3
          · simp only [links, Bool.and_eq_true, beq_iff_eq]
            refine ⟨?_, trivial⟩
            rw [hnxt2_p, hcycS]
            simp only [List.headD]
            cases hc2 : S with
            | nil => exact absurd hc2 hSne
            | cons a r => simp
        · -- links of S, last element re-pointed at the head of P
          rw [← hSdecomp, links_append, Bool.and_eq_true]
          constructor
          · have hS0sub : ∀ a ∈ S.dropLast, a ∈ S := by
              intro a ha
              rw [← hSdecomp]
              exact List.mem_append_left _ ha
            rw [links_congr _ s.nxt _ _ (fun a ha => by
              have hat : a ≠ t := fun he => hndS0 (he ▸ ha)
              have hap : a ≠ p := fun he => hdisj hpP ((he ▸ hS0sub a ha) : p ∈ S)
              exact hnxt2_frame a hat hap)]
            have hlS := hS.2
            rw [← hSdecomp, links_append, Bool.and_eq_true] at hlS
            have h3 := hlS.1
            simpa using h3
          · simp only [links, Bool.and_eq_true, beq_iff_eq]
            refine ⟨?_, trivial⟩
            rw [hnxt2_t, hcycP]
            simp [List.headD]
      · simp
      · trivial

theorem finish_none (s : ConcState) (h : s.concurrentQueues = none) :
    finishQueueingConcurrentUpdates s = s := by
  unfold finishQueueingConcurrentUpdates
  rw [h]

theorem finish_single (s : ConcState) (q : Nat)
    (h : s.concurrentQueues = some [q]) :
    finishQueueingConcurrentUpdates s =
      { transferQueue s q with concurrentQueues := none } := by
  unfold finishQueueingConcurrentUpdates
  rw [h]
  rfl

theorem transfer_pending_none (s : ConcState) (q t : Nat)
    (hi : s.interleaved q = some t) (hp : s.pending q = none) :
    (transferQueue s q).nxt = s.nxt ∧
    (transferQueue s q).pending q = some t := by
  unfold transferQueue
  rw [hi]
  simp [updO, hp]

/-- C1: for a registered queue whose side channel is non-empty, the
merge step clears `interleaved`; when `pending` was absent the side list
becomes the primary list verbatim (tail pointer moved, heap untouched);
otherwise the two circular lists are spliced into one that carries the
pending span first and the side span after it in arrival order; in both
cases the new primary tail is the side list's former tail. -/
theorem claim_C1_merge_splice (s : ConcState) (q : Nat) (P S : List Nat)
    (hreg : s.concurrentQueues = some [q])
    (hP : repCirc s.nxt (s.pending q) P)
    (hS : repCirc s.nxt (s.interleaved q) S)
    (hSne : S ≠ [])
    (hnd : (P ++ S).Nodup) :
    (finishQueueingConcurrentUpdates s).interleaved q = none ∧
    (P = [] →
      (finishQueueingConcurrentUpdates s).pending q = s.interleaved q ∧
      (finishQueueingConcurrentUpdates s).nxt = s.nxt) ∧
    repCirc (finishQueueingConcurrentUpdates s).nxt
      ((finishQueueingConcurrentUpdates s).pending q) (P ++ S) ∧
    (finishQueueingConcurrentUpdates s).pending q = S.getLast? := by
  rw [finish_single s q hreg]
  have htr := transfer_rep s q P S hP hS hnd
  refine ⟨htr.2.1, ?_, htr.1, ?_⟩
  · intro hPe
    subst hPe
    have hpn : s.pending q = none := repCirc_tail_none _ _ hP
    have hisome : s.interleaved q = some (S.getLast hSne) :=
      repCirc_tail_some _ _ _ hS hSne
    have := transfer_pending_none s q (S.getLast hSne) hisome hpn
    exact ⟨by rw [this.2, hisome], this.1⟩
  · show (transferQueue s q).pending q = S.getLast?
    rw [htr.1.1, getLast?_append_of_ne_nil P S hSne]

theorem enqueueHook_registered (fuel fiber q u lane : Nat) (s : ConcState)
    (hi : s.interleaved q = none) :
    registeredQueue (enqueueConcurrentHookUpdate fuel fiber q u lane s).2 q := by
  cases hc : s.concurrentQueues with
  | none =>
    simp [enqueueConcurrentHookUpdate, hi, pushConcurrentUpdateQueue, hc,
      registeredQueue]
  | some l =>
    simp [enqueueConcurrentHookUpdate, hi, pushConcurrentUpdateQueue, hc,
      registeredQueue]

/-- C2 (counterexample part): with one record already pending and one
side-channel append, the merged primary list read head-to-tail from
`pending.next` is the old pending record first and the appended record
second — not the side-channel record first as the claim states. -/
theorem claim_C2_counterexample :
    (finishQueueingConcurrentUpdates
        ((enqueueConcurrentHookUpdate 0 0 0 2 1 concC2cex).2)).pending 0 =
      some 2 ∧
    readFrom
      (finishQueueingConcurrentUpdates
        ((enqueueConcurrentHookUpdate 0 0 0 2 1 concC2cex).2)).nxt
      ((finishQueueingConcurrentUpdates
        ((enqueueConcurrentHookUpdate 0 0 0 2 1 concC2cex).2)).nxt 2) 2 =
      [1, 2] ∧
    ([1, 2] : List Nat) ≠ [2, 1] := by
  refine ⟨by decide, by decide, by decide⟩

/-- C2 (amended): after `N ≥ 1` side-channel appends and one merge, the
primary list read head-to-tail from `pending.next` yields the records
that were already pending (in order) followed by the `N` appended
records in append order, and the list is circular (the tail's `next` is
the head). -/
theorem claim_C2_amended_merge_order (fuel fiber q lane : Nat)
    (us P : List Nat) (s : ConcState)
    (hP : repCirc s.nxt (s.pending q) P)
    (hi : s.interleaved q = none)
    (hreg : s.concurrentQueues = none)
    (husne : us ≠ [])
    (hnd : (P ++ us).Nodup) :
    (finishQueueingConcurrentUpdates
      (enqueueN fuel fiber q lane us s)).interleaved q = none ∧
    (finishQueueingConcurrentUpdates
      (enqueueN fuel fiber q lane us s)).pending q = (P ++ us).getLast? ∧
    (∀ tl,
      (finishQueueingConcurrentUpdates
        (enqueueN fuel fiber q lane us s)).pending q = some tl →
      (finishQueueingConcurrentUpdates
        (enqueueN fuel fiber q lane us s)).nxt tl = (P ++ us).headD 0 ∧
      readFrom
        (finishQueueingConcurrentUpdates
          (enqueueN fuel fiber q lane us s)).nxt
        ((finishQueueingConcurrentUpdates
          (enqueueN fuel fiber q lane us s)).nxt tl)
        (P ++ us).length = P ++ us) := by
  have hS0 : repCirc s.nxt (s.interleaved q) [] := ⟨by simp [hi], rfl⟩
  have hen := enqueueN_rep fuel fiber q lane us s P [] hP hS0
    (fun _ => hreg) (fun h => absurd rfl h) (by simpa using hnd)
  obtain ⟨hP2, hS2, -, hreg1⟩ := hen
  have hregq : (enqueueN fuel fiber q lane us s).concurrentQueues = some [q] :=
    hreg1 (by simpa using husne)
  rw [finish_single _ q hregq]
  have htr := transfer_rep (enqueueN fuel fiber q lane us s) q P us hP2
    (by simpa using hS2) hnd
  have hPusne : P ++ us ≠ [] := by
    intro he
    exact husne ((List.append_eq_nil.mp he).2)
  refine ⟨htr.2.1, htr.1.1, ?_⟩
  intro tl htl
  have hlinks := htr.1.2
  have hlast : (transferQueue (enqueueN fuel fiber q lane us s) q).pending q =
      some tl := htl
  have hgl : (P ++ us).getLast? = some tl := by rw [← htr.1.1]; exact hlast
  have hcyc : (transferQueue (enqueueN fuel fiber q lane us s) q).nxt tl =
      (P ++ us).headD 0 :=
    links_last _ (P ++ us) ((P ++ us).headD 0) tl hlinks hgl
  refine ⟨hcyc, ?_⟩
  show readFrom (transferQueue (enqueueN fuel fiber q lane us s) q).nxt
    ((transferQueue (enqueueN fuel fiber q lane us s) q).nxt tl)
    (P ++ us).length = P ++ us
  rw [hcyc]
  exact readFrom_of_links _ (P ++ us) ((P ++ us).headD 0) hlinks hPusne

/-- C3: an enqueue (hook-style or class-style) whose side channel is
empty makes the record a singleton circular list and registers the queue
with the registry; otherwise it splices the record right after the old
tail; in both cases the tail pointer becomes the new record; class-style
and hook-style perform the identical state change; in particular,
enqueueing `B = 1` on a side channel holding only `A = 0` yields
`B.next = A`, `A.next = B`, tail `= B`. -/
theorem claim_C3_enqueue_splice (fuel fiber q u lane : Nat) (s : ConcState) :
    (s.interleaved q = none →
      (enqueueConcurrentHookUpdate fuel fiber q u lane s).2.nxt u = u ∧
      registeredQueue (enqueueConcurrentHookUpdate fuel fiber q u lane s).2 q ∧
      (enqueueConcurrentHookUpdate fuel fiber q u lane s).2.interleaved q =
        some u) ∧
    (∀ t, s.interleaved q = some t → u ≠ t →
      (enqueueConcurrentHookUpdate fuel fiber q u lane s).2.nxt u = s.nxt t ∧
      (enqueueConcurrentHookUpdate fuel fiber q u lane s).2.nxt t = u ∧
      (enqueueConcurrentHookUpdate fuel fiber q u lane s).2.interleaved q =
        some u) ∧
    enqueueConcurrentClassUpdate fuel fiber q u lane s =
      enqueueConcurrentHookUpdate fuel fiber q u lane s ∧
    ((enqueueConcurrentHookUpdate 0 0 0 1 0 concC3A).2.nxt 1 = 0 ∧
      (enqueueConcurrentHookUpdate 0 0 0 1 0 concC3A).2.nxt 0 = 1 ∧
      (enqueueConcurrentHookUpdate 0 0 0 1 0 concC3A).2.interleaved 0 =
        some 1) := by
  refine ⟨?_, ?_, rfl, by decide, by decide, by decide⟩
  · intro hi
    refine ⟨?_, enqueueHook_registered fuel fiber q u lane s hi, ?_⟩
    · rw [enqueueHook_nxt_none fuel fiber q u lane s hi, upd_same]
    · rw [enqueueHook_interleaved fuel fiber q u lane s]
      simp [updO]
  · intro t hi hut
    refine ⟨?_, ?_, ?_⟩
    · rw [enqueueHook_nxt_some fuel fiber q u lane t s hi,
        upd_other _ t u u hut, upd_same]
    · rw [enqueueHook_nxt_some fuel fiber q u lane t s hi, upd_same]
    · rw [enqueueHook_interleaved fuel fiber q u lane s]
      simp [updO]

/-- C7: the merge step is idempotent — running it twice gives the same
state as running it once, and after one run the registry is empty. -/
theorem claim_C7_merge_idempotent (s : ConcState) :
    finishQueueingConcurrentUpdates (finishQueueingConcurrentUpdates s) =
      finishQueueingConcurrentUpdates s ∧
    (finishQueueingConcurrentUpdates s).concurrentQueues = none := by
  have hreg : (finishQueueingConcurrentUpdates s).concurrentQueues = none := by
    cases hc : s.concurrentQueues with
    | none => rw [finish_none s hc]; exact hc
    | some qs => simp [finishQueueingConcurrentUpdates, hc]
  exact ⟨finish_none _ hreg, hreg⟩

/-- C9: the eager-bailout enqueue performs exactly the side-channel
mutation of the regular hook enqueue and leaves the fiber heap — all
`lanes` and `childLanes` — untouched. -/
theorem claim_C9_bailout_skips_propagation (fuel fiber q u lane : Nat)
    (s : ConcState) :
    enqueueConcurrentHookUpdateAndEagerlyBailout fiber q u lane s =
      { (enqueueConcurrentHookUpdate fuel fiber q u lane s).2 with
        fibers := s.fibers } ∧
    (enqueueConcurrentHookUpdateAndEagerlyBailout fiber q u lane s).fibers =
      s.fibers := by
  cases hi : s.interleaved q with
  | none =>
    cases hc : s.concurrentQueues with
    | none =>
      constructor <;>
        simp [enqueueConcurrentHookUpdateAndEagerlyBailout,
          enqueueConcurrentHookUpdate, pushConcurrentUpdateQueue, hi, hc]
    | some l =>
      constructor <;>
        simp [enqueueConcurrentHookUpdateAndEagerlyBailout,
          enqueueConcurrentHookUpdate, pushConcurrentUpdateQueue, hi, hc]
  | some t =>
    constructor <;>
      simp [enqueueConcurrentHookUpdateAndEagerlyBailout,
        enqueueConcurrentHookUpdate, hi]

theorem finishEventHandler_flag (u : BatchState) :
    (finishEventHandler u).isInsideEventHandler = u.isInsideEventHandler := by
  unfold finishEventHandler needsStateRestore restoreStateIfNeeded flushSyncImpl
  split <;> rfl

theorem finishEventHandler_restored (u : BatchState) :
    (finishEventHandler u).needsRestore = false := by
  unfold finishEventHandler needsStateRestore restoreStateIfNeeded flushSyncImpl
  split
  · rfl
  · rename_i h2
    simp at h2
    exact h2

theorem finishEventHandler_flushes (u : BatchState) :
    (finishEventHandler u).flushes =
      u.flushes + (if u.needsRestore then 1 else 0) := by
  unfold finishEventHandler needsStateRestore restoreStateIfNeeded flushSyncImpl
  split
  · rename_i h2
    simp [h2]
  · rename_i h2
    simp at h2
    simp [h2]

/-- C6: a nested `batchedUpdates` call runs the operation inline (no
finalize step); an outermost call propagates the operation's result or
abnormal exit, always clears the reentrancy flag, always leaves no state
to restore, and runs the finalize step exactly once (one synchronous
flush exactly when the operation left state to restore); wrapping an
operation in a second `batchedUpdates` layer changes nothing. -/
theorem claim_C6_batched_updates {α : Type} (fn : BatchOp α) (s : BatchState) :
    (s.isInsideEventHandler = true → batchedUpdates fn s = fn s) ∧
    (s.isInsideEventHandler = false →
      (batchedUpdates fn s).1 =
        (fn { s with isInsideEventHandler := true }).1 ∧
      (batchedUpdates fn s).2.isInsideEventHandler = false ∧
      (batchedUpdates fn s).2.needsRestore = false ∧
      (batchedUpdates fn s).2.flushes =
        (fn { s with isInsideEventHandler := true }).2.flushes +
          (if (fn { s with isInsideEventHandler := true }).2.needsRestore
            then 1 else 0)) ∧
    batchedUpdates (fun t => batchedUpdates fn t) s = batchedUpdates fn s := by
  refine ⟨?_, ?_, ?_⟩
  · intro h
    simp [batchedUpdates, h]
  · intro h
    have hb : batchedUpdates fn s =
        ((fn { s with isInsideEventHandler := true }).1,
          finishEventHandler
            { (fn { s with isInsideEventHandler := true }).2 with
              isInsideEventHandler := false }) := by
      unfold batchedUpdates
      rw [h]
      simp
    rw [hb]
    refine ⟨rfl, ?_, ?_, ?_⟩
    · rw [finishEventHandler_flag]
    · rw [finishEventHandler_restored]
    · rw [finishEventHandler_flushes]
  · by_cases h : s.isInsideEventHandler
    · simp [batchedUpdates, h]
    · simp [batchedUpdates, h]

/-- C8: reading a context cursor that still holds the `NO_CONTEXT`
sentinel raises the fatal no-context error; once a push has established
a value (here via `pushHostContainer`), the read returns it. -/
theorem claim_C8_required_context (s : HostContextState)
    (getRootHostContext : Nat → Nat) (fiber root : Nat) :
    (s.contextCurrent = none →
      getHostContext s = Except.error noContextMsg) ∧
    (∀ v, s.contextCurrent = some v → getHostContext s = Except.ok v) ∧
    (s.rootCurrent = none →
      getRootHostContainer s = Except.error noContextMsg) ∧
    (∀ v, s.rootCurrent = some v → getRootHostContainer s = Except.ok v) ∧
    getHostContext (pushHostContainer getRootHostContext fiber root s) =
      Except.ok (getRootHostContext root) ∧
    getRootHostContainer (pushHostContainer getRootHostContext fiber root s) =
      Except.ok root := by
  refine ⟨?_, ?_, ?_, ?_, rfl, rfl⟩
  · intro h
    simp [getHostContext, requiredContext, h]
  · intro v h
    simp [getHostContext, requiredContext, h]
  · intro h
    simp [getRootHostContainer, requiredContext, h]
  · intro v h
    simp [getRootHostContainer, requiredContext, h]

/-- C10 (counterexample part): when the provider-tracking cursor already
records the node and the computed child context equals the current one,
the push is skipped but the pop still acts, so push-then-pop does not
restore the cursors. -/
theorem claim_C10_counterexample :
    pushHostContext (fun c _ _ => c) (fun _ => 0) 7 hostCtxAliased =
      Except.ok hostCtxAliased ∧
    (popHostContext 7 hostCtxAliased).contextCurrent = none ∧
    hostCtxAliased.contextCurrent = some 5 ∧
    Except.map (popHostContext 7)
        (pushHostContext (fun c _ _ => c) (fun _ => 0) 7 hostCtxAliased) ≠
      Except.ok hostCtxAliased := by
  refine ⟨rfl, rfl, rfl, ?_⟩
  have hmap : Except.map (popHostContext 7)
      (pushHostContext (fun c _ _ => c) (fun _ => 0) 7 hostCtxAliased) =
      Except.ok (popHostContext 7 hostCtxAliased) := rfl
  intro h
  rw [hmap] at h
  have h2 := Except.ok.inj h
  have h3 := congrArg HostContextState.contextCurrent h2
  exact absurd h3 (by decide)

/-- C10 (amended): provided the provider-tracking cursor does not
already record the node when the computed child context equals the
parent's, a push followed by the matching pop restores the full cursor
state: the equal-context case skips both, the distinct-context case
records the node at push time and the pop acts exactly for it. -/
theorem claim_C10_amended_push_pop (gchc : Nat → Nat → Nat → Nat)
    (ftype : Nat → Nat) (fiber : Nat) (s : HostContextState) (r c : Nat)
    (hr : s.rootCurrent = some r) (hc : s.contextCurrent = some c)
    (hno : gchc c (ftype fiber) r = c → s.fiberCurrent ≠ some fiber) :
    (gchc c (ftype fiber) r = c →
      pushHostContext gchc ftype fiber s = Except.ok s ∧
      popHostContext fiber s = s) ∧
    (gchc c (ftype fiber) r ≠ c →
      ∀ s2, pushHostContext gchc ftype fiber s = Except.ok s2 →
        s2.fiberCurrent = some fiber ∧ popHostContext fiber s2 = s) ∧
    Except.map (popHostContext fiber) (pushHostContext gchc ftype fiber s) =
      Except.ok s := by
  have hpush : pushHostContext gchc ftype fiber s =
      (if c = gchc c (ftype fiber) r then Except.ok s
       else Except.ok (pushContextCursor (some (gchc c (ftype fiber) r))
         (pushFiberCursor (some fiber) s))) := by
    unfold pushHostContext
    rw [hr, hc]
    rfl
  by_cases heq : gchc c (ftype fiber) r = c
  · rw [hpush, if_pos heq.symm]
    have hpop : popHostContext fiber s = s := by
      unfold popHostContext
      rw [if_pos]
      exact hno heq
    refine ⟨fun _ => ⟨rfl, hpop⟩, fun hne => absurd heq hne, ?_⟩
    show Except.ok (popHostContext fiber s) = Except.ok s
    rw [hpop]
  · rw [hpush, if_neg (fun hx => heq hx.symm)]
    have hfc : (pushContextCursor (some (gchc c (ftype fiber) r))
        (pushFiberCursor (some fiber) s)).fiberCurrent = some fiber := rfl
    have hpop : popHostContext fiber
        (pushContextCursor (some (gchc c (ftype fiber) r))
          (pushFiberCursor (some fiber) s)) = s := by
      unfold popHostContext
      rw [if_neg (by simp [hfc])]
      rfl
    refine ⟨fun he => absurd he heq, ?_, ?_⟩
    · intro hne s2 hs2
      have hs2e := Except.ok.inj hs2
      subst hs2e
      exact ⟨hfc, hpop⟩
    · show Except.ok (popHostContext fiber
        (pushContextCursor (some (gchc c (ftype fiber) r))
          (pushFiberCursor (some fiber) s))) = Except.ok s
      rw [hpop]

/-- Witness for C1 at a concrete state: pending `[1]`, side `[2]`. -/
theorem claim_C1_witness :
    (finishQueueingConcurrentUpdates concC1w).pending 0 =
      ([2] : List Nat).getLast? :=
  (claim_C1_merge_splice concC1w 0 [1] [2] (by decide) (by decide) (by decide)
    (by decide) (by decide)).2.2.2

/-- Witness for amended C2 at a concrete state: empty pending, one
append. -/
theorem claim_C2_amended_witness :
    (finishQueueingConcurrentUpdates
      (enqueueN 0 0 0 1 [5] concBase)).pending 0 =
      (([] : List Nat) ++ [5]).getLast? :=
  (claim_C2_amended_merge_order 0 0 0 1 [5] [] concBase (by decide) (by decide)
    (by decide) (by decide) (by decide)).2.1

/-- Witness for C3: splicing `B = 1` after `A = 0` on queue `0`. -/
theorem claim_C3_witness :
    (enqueueConcurrentHookUpdate 0 0 0 1 0 concC3A).2.nxt 1 = concC3A.nxt 0 ∧
    (enqueueConcurrentHookUpdate 0 0 0 1 0 concC3A).2.nxt 0 = 1 ∧
    (enqueueConcurrentHookUpdate 0 0 0 1 0 concC3A).2.interleaved 0 =
      some 1 :=
  (claim_C3_enqueue_splice 0 0 0 1 0 concC3A).2.1 0 (by decide) (by decide)

/-- Witness for C4 on the two-node tree: the child's lanes include the
propagated lane. -/
theorem claim_C4_witness :
    subLane 1 (((markUpdateLaneFromFiberToRoot 2 fiberHeapW 1 1).2 1).lanes) :=
  (claim_C4_markUpdateLane_propagation 2 fiberHeapW 1 1 [2] (by decide)).1

/-- Witness for C5 on the two-node tree: the walk ends at the
`HostRoot` fiber `2`, so its root container is returned. -/
theorem claim_C5_witness :
    (markUpdateLaneFromFiberToRoot 2 fiberHeapW 1 1).1 =
      (if (fiberHeapW 2).tag = HostRoot then some ((fiberHeapW 2).stateNode)
       else none) :=
  (claim_C5_markUpdateLane_root 2 fiberHeapW 1 1 2 [1, 2] (by decide)
    (by decide)).1

/-- Witness for C6: an operation that dirties state and throws still
has the flag cleared and the state restored by the outermost call. -/
theorem claim_C6_witness :
    (batchedUpdates batchFnW batchW).2.isInsideEventHandler = false ∧
    (batchedUpdates batchFnW batchW).2.needsRestore = false :=
  ⟨((claim_C6_batched_updates batchFnW batchW).2.1 rfl).2.1,
    ((claim_C6_batched_updates batchFnW batchW).2.1 rfl).2.2.1⟩

/-- Witness for C8: reading the never-pushed cursor fails with the
no-context error. -/
theorem claim_C8_witness :
    getHostContext hostCtxEmpty = Except.error noContextMsg :=
  (claim_C8_required_context hostCtxEmpty (fun x => x) 0 0).1 rfl

/-- Witness for amended C10: a distinct child context is pushed for
fiber `7` and the matching pop restores the state. -/
theorem claim_C10_amended_witness :
    Except.map (popHostContext 7)
        (pushHostContext (fun _ _ _ => 6) (fun _ => 0) 7 hostCtxW) =
      Except.ok hostCtxW :=
  (claim_C10_amended_push_pop (fun _ _ _ => 6) (fun _ => 0) 7 hostCtxW 3 5
    (by decide) (by decide) (fun h => absurd h (by decide))).2.2
